import Mathlib

/-!
Verification of the source-location resolution engine of `nextjs-locator`.

The definitions below are a shallow embedding of the TypeScript sources:
  * `src/lib/vlq.ts`          — VLQ delta decoder (`decodeVLQSegment`,
                                `decodeOriginalPosition`);
  * `src/lib/source-map.ts`   — sectioned-map resolver, cache and prefetch
                                (`resolveSourceMap`, `prefetchSourceMap`,
                                `extractPathFromTurbopack`);
  * `src/lib/fiber.ts`        — runtime debug adapter (`extractDebugSource`,
                                `extractStackFrame`, `findNearestComponentFiber`,
                                `collectComponentAncestry`);
  * `src/Locator.tsx`         — orchestrator (`resolveComponentSource`).

JavaScript numbers are modelled by `Int`/`Nat` (line and column inputs are
parsed decimal digits, hence `Nat`; VLQ deltas are signed, hence `Int`).
The asynchronous retrieval capability (`fetch`) is modelled by an explicit
oracle `String → FetchOutcome`; a rejected promise is `Except.error ()`,
and every effectful operation additionally returns the updated cache and
the number of retrieval calls it performed.
-/

namespace NextjsLocator

/-! ## VLQ decoder — `src/lib/vlq.ts` -/

/-- JS `String.prototype.split` on a character predicate, over the character
list: splitting the empty string yields `[""]`, adjacent separators yield
empty fields. -/
def splitList (p : Char → Bool) : List Char → List (List Char)
  | [] => [[]]
  | c :: rest =>
    if p c then [] :: splitList p rest
    else
      match splitList p rest with
      | [] => [[c]]
      | l :: ls => (c :: l) :: ls

/-- JS `String.prototype.split` producing strings. -/
def splitStr (p : Char → Bool) (s : String) : List String :=
  (splitList p s.toList).map String.mk

/-- JS `String.prototype.startsWith`. -/
def strStartsWith (s pat : String) : Bool :=
  pat.toList.isPrefixOf s.toList

/-- JS `String.prototype.slice(n)` for a non-negative start. -/
def strDrop (s : String) (n : Nat) : String :=
  String.mk (s.toList.drop n)

/-- The fixed 64-symbol alphabet `BASE64_CHARS` of `vlq.ts`. -/
def BASE64_CHARS : String :=
  "ABCDEFGHIJKLMNOPQRSTUVWXYZabcdefghijklmnopqrstuvwxyz0123456789+/"

/-- `BASE64_CHARS.indexOf(char)`, with `none` for the JS result `-1`. -/
def base64Index (c : Char) : Option Nat :=
  BASE64_CHARS.toList.findIdx? (fun d => d == c)

/-- The final sign step of `decodeVLQSegment`: the least-significant bit of
the reassembled integer is a sign flag (`isNegative`), the rest (`value >>= 1`)
is the magnitude. -/
def vlqSign (value : Nat) : Int :=
  if value % 2 = 1 then -((value / 2 : Nat) : Int) else ((value / 2 : Nat) : Int)

/-- The two nested loops of `decodeVLQSegment`, flattened into one
left-to-right pass.  `value` and `shift` are the state of the token being
assembled (both 0 at a token boundary).  Bit 32 of each 6-bit group is the
continuation flag; the low 5 bits (`digit & 31`) are payload, little-endian
(`<< shift`); a completed token is pushed after the sign step.  A character
outside the alphabet (`indexOf === -1`) fails the whole segment.  When the
input runs out mid-token the JS inner loop exits and the partial value is
pushed, which is the `shift ≠ 0` case of the base clause. -/
def decodeSegChars : List Char → Nat → Nat → List Int → Option (List Int)
  | [], _, 0, acc => some acc.reverse
  | [], value, _ + 1, acc => some (vlqSign value :: acc).reverse
  | c :: rest, value, shift, acc =>
    match base64Index c with
    | none => none
    | some digit =>
      let value' := value + digit % 32 * 2 ^ shift
      if 32 ≤ digit then decodeSegChars rest value' (shift + 5) acc
      else decodeSegChars rest 0 0 (vlqSign value' :: acc)

/-- `decodeVLQSegment` of `vlq.ts`: `null` for the empty segment, otherwise
decode the whole character list. -/
def decodeVLQSegment (segment : String) : Option (List Int) :=
  if segment = "" then none else decodeSegChars segment.toList 0 0 []

/-- The result record of `decodeOriginalPosition` (`OriginalPosition` in
`src/types.ts`). -/
structure OriginalPosition where
  originalLine : Int
  originalColumn : Int
deriving DecidableEq, Repr

/-- The four cumulative accumulators of `decodeOriginalPosition`:
`accGeneratedColumn`, `_accSourceIndex`, `accOriginalLine`,
`accOriginalColumn`. -/
structure MappingAcc where
  genCol : Int
  srcIdx : Int
  origLine : Int
  origCol : Int
deriving DecidableEq, Repr

/-- The position reported for an accumulator state: `originalLine` is
1-indexed (`accOriginalLine + 1`), the column is reported as accumulated. -/
def posOf (acc : MappingAcc) : OriginalPosition :=
  { originalLine := acc.origLine + 1, originalColumn := acc.origCol }

/-- The guard `if (!decoded || decoded.length < 4) continue` of
`decodeOriginalPosition`, together with the four fields `decoded[0..3]` a
usable segment contributes: `none` for a segment that fails to decode or has
fewer than 4 fields. -/
def segmentDeltas (seg : String) : Option (Int × Int × Int × Int) :=
  match decodeVLQSegment seg with
  | some (g :: s :: ol :: oc :: _) => some (g, s, ol, oc)
  | _ => none

/-- Advance the four accumulators by a segment's decoded deltas. -/
def stepAcc (acc : MappingAcc) (d : Int × Int × Int × Int) : MappingAcc :=
  { genCol := acc.genCol + d.1, srcIdx := acc.srcIdx + d.2.1,
    origLine := acc.origLine + d.2.2.1, origCol := acc.origCol + d.2.2.2 }

/-- The inner `for (const segment of segments)` loop of
`decodeOriginalPosition`: a segment that fails to decode or has fewer than 4
fields is skipped (`continue`); otherwise the four accumulators advance by the
decoded deltas, and — only on the target line (`check`) — the walk returns
early with the current position once the running generated column reaches the
target column. -/
def runSegments (targetColumn : Int) (check : Bool) :
    List String → MappingAcc → Except OriginalPosition MappingAcc
  | [], acc => .ok acc
  | seg :: rest, acc =>
    match segmentDeltas seg with
    | some d =>
      let acc' := stepAcc acc d
      if check = true ∧ targetColumn ≤ acc'.genCol then .error (posOf acc')
      else runSegments targetColumn check rest acc'
    | none => runSegments targetColumn check rest acc

/-- The outer `for (let lineIdx = 0; lineIdx <= targetLine; ...)` loop of
`decodeOriginalPosition`.  `tl` counts the remaining lines up to the target
line; an empty line string is skipped (`if (!lineMapping) continue`); a
non-empty line resets the generated-column accumulator to 0 and runs the
segment loop, with the early-return check active exactly on the target line.
When the loop completes,the final accumulator state is reported. -/
def walkLines (targetColumn : Int) : List String → Nat → MappingAcc → OriginalPosition
  | [], _, acc => posOf acc
  | l :: rest, tl, acc =>
    if l = "" then
      match tl with
      | 0 => posOf acc
      | tl' + 1 => walkLines targetColumn rest tl' acc
    else
      match runSegments targetColumn (tl == 0) (splitStr (fun c => c == ',') l) { acc with genCol := 0 } with
      | .error pos => pos
      | .ok acc' =>
        match tl with
        | 0 => posOf acc'
        | tl' + 1 => walkLines targetColumn rest tl' acc'

/-- `decodeOriginalPosition` of `vlq.ts`: split the mappings string on `;`,
return `null` when the target line is beyond the line count, otherwise walk
lines `0..targetLine` inclusive. -/
def decodeOriginalPosition (mappings : String) (targetLine : Nat) (targetColumn : Int) :
    Option OriginalPosition :=
  let generatedLines := splitStr (fun c => c == ';') mappings
  if generatedLines.length ≤ targetLine then none
  else some (walkLines targetColumn generatedLines targetLine ⟨0, 0, 0, 0⟩)

/-! ### Specification-side characterization of the mapping walk

The following functions restate, directly from the claims' wording, the
sequence of decoded positions of a line and the accumulator carried across
lines; the claim theorems relate them to the implementation above. -/

/-- The accumulator states after each parseable segment of a line (the
"decoded positions" of the line); an unparseable or short segment contributes
no state. -/
def lineStates : List String → MappingAcc → List MappingAcc
  | [], _ => []
  | seg :: rest, acc =>
    match segmentDeltas seg with
    | some d => stepAcc acc d :: lineStates rest (stepAcc acc d)
    | none => lineStates rest acc

/-- The accumulator after folding all parseable segments of a line, with no
early return. -/
def foldSegs : List String → MappingAcc → MappingAcc
  | [], acc => acc
  | seg :: rest, acc =>
    match segmentDeltas seg with
    | some d => foldSegs rest (stepAcc acc d)
    | none => foldSegs rest acc

/-- The accumulator after one whole generated line: an empty line is skipped,
a non-empty line resets the generated column to 0 and folds its segments. -/
def foldLine (l : String) (acc : MappingAcc) : MappingAcc :=
  if l = "" then acc else foldSegs (splitStr (fun c => c == ',') l) { acc with genCol := 0 }

/-- The accumulator after a list of whole generated lines. -/
def foldLinesAcc : List String → MappingAcc → MappingAcc
  | [], acc => acc
  | l :: rest, acc => foldLinesAcc rest (foldLine l acc)

/-! ## Sectioned source-map resolver — `src/lib/source-map.ts` -/

/-- One entry of a Turbopack sectioned source map: `{offset: {line}, map:
{sources, mappings}}`. -/
structure MapSection where
  offsetLine : Nat
  sources : List String
  mappings : String
deriving DecidableEq, Repr

/-- The terminal value of a resolution (`ResolvedSource` in `src/types.ts`). -/
structure ResolvedSource where
  filePath : String
  originalLine : Int
  originalColumn : Int
deriving DecidableEq, Repr

/-- The `for (let i = sections.length - 1; i >= 0; i--)` scan of
`resolveSourceMap`: the first section from the end whose `offset.line` is
`≤ generatedLine`.  Recursively: a match found in the tail (later sections)
takes priority over the head. -/
def findMatchedSection : List MapSection → Nat → Option MapSection
  | [], _ => none
  | s :: rest, line =>
    match findMatchedSection rest line with
    | some m => some m
    | none => if s.offsetLine ≤ line then some s else none

/-- Drop everything up to and including the first occurrence of `pat` in
`text`; `none` if `pat` does not occur.  This models where the regular
expression `/turbopack:\/\/\/\[project\]\/(.*)/` starts matching. -/
def dropAfterMatch (pat : List Char) : List Char → Option (List Char)
  | [] => if pat.isPrefixOf ([] : List Char) then some [] else none
  | c :: rest =>
    if pat.isPrefixOf (c :: rest) then some ((c :: rest).drop pat.length)
    else dropAfterMatch pat rest

/-- The literal part of the Turbopack source-URI pattern. -/
def turboPat : String := "turbopack:///[project]/"

/-- `extractPathFromTurbopack` of `source-map.ts`.  The capture `(.*)` of the
regex stops at the end of the line, hence the `takeWhile` on newline.  A
captured path that already looks like an OS-absolute fragment (starting with
`Users/` or `home/`) is prefixed with `/`; otherwise it is resolved against
the explicit `projectRoot` or, failing that, the ambient
`NEXT_PUBLIC_PROJECT_ROOT` (modelled by `envRoot`), defaulting to `""`. -/
def extractPathFromTurbopack (uri : String) (projectRoot : Option String)
    (envRoot : Option String) : String :=
  match dropAfterMatch turboPat.toList uri.toList with
  | some afterChars =>
    let relativePath := String.mk (afterChars.takeWhile (fun c => c ≠ '\n'))
    if strStartsWith relativePath "Users/" || strStartsWith relativePath "home/" then
      "/" ++ relativePath
    else
      let root := projectRoot.getD (envRoot.getD "")
      root ++ "/" ++ relativePath
  | none => uri

/-- The outcome of one `fetch(chunkUrl + '.map')` call, as the engine observes
it: a rejected promise (`netError`), a non-success status (`httpError`, the
`!resp.ok` branch), a body that `resp.json()` fails to parse (`badJson`), or a
parsed JSON document whose `sections` field may be absent. -/
inductive FetchOutcome where
  | netError
  | httpError
  | badJson
  | payload (sections : Option (List MapSection))
deriving DecidableEq, Repr

/-- The ambient environment of the engine: the injected retrieval capability
and the environment-sourced project root. -/
structure Env where
  oracle : String → FetchOutcome
  envProjectRoot : Option String

/-- The source-map cache (`Map<string, SourceMapSections>`), modelled as an
association list; `Map.set` on a missing key prepends. -/
abbrev SMCache := List (String × List MapSection)

/-- `cache.get(chunkUrl)`. -/
def cacheGet : SMCache → String → Option (List MapSection)
  | [], _ => none
  | (k, v) :: rest, key => if k = key then some v else cacheGet rest key

/-- The file-path derivation of `resolveSourceMap` from the section's first
source URI: strip a `file://` scheme, translate a `turbopack:///` URI (with no
explicit project root — `resolveSourceMap` does not pass one), otherwise pass
the URI through unchanged. -/
def sourceUriToPath (env : Env) (sourceUri : String) : String :=
  if strStartsWith sourceUri "file://" then strDrop sourceUri 7
  else if strStartsWith sourceUri "turbopack:///" then
    extractPathFromTurbopack sourceUri none env.envProjectRoot
  else sourceUri

/-- The pure part of `resolveSourceMap` once the sections are available:
section selection, path derivation, and VLQ decoding at the section-relative
line, with the decode-miss defaults `?? 1` and `?? 0`. -/
def resolveInSections (env : Env) (sections : List MapSection)
    (generatedLine generatedColumn : Nat) : Option ResolvedSource :=
  match findMatchedSection sections generatedLine with
  | none => none
  | some matchedSection =>
    match matchedSection.sources with
    | [] => none
    | sourceUri :: _ =>
      let filePath := sourceUriToPath env sourceUri
      let sectionRelativeLine := generatedLine - matchedSection.offsetLine
      let originalPos :=
        decodeOriginalPosition matchedSection.mappings sectionRelativeLine
          (generatedColumn : Int)
      some
        { filePath := filePath,
          originalLine := match originalPos with | some p => p.originalLine | none => 1,
          originalColumn := match originalPos with | some p => p.originalColumn | none => 0 }

/-- `resolveSourceMap` of `source-map.ts`.  Returns the resolution outcome
(`Except.error ()` models a rejected promise — the function has no
`try`/`catch`), the updated cache, and the number of retrieval calls (0 on a
cache hit, 1 otherwise).  Only a payload that carries `sections` is cached. -/
def resolveSourceMap (env : Env) (chunkUrl : String)
    (generatedLine generatedColumn : Nat) (cache : SMCache) :
    Except Unit (Option ResolvedSource) × SMCache × Nat :=
  match cacheGet cache chunkUrl with
  | some sections =>
    (.ok (resolveInSections env sections generatedLine generatedColumn), cache, 0)
  | none =>
    match env.oracle (chunkUrl ++ ".map") with
    | .netError => (.error (), cache, 1)
    | .httpError => (.ok none, cache, 1)
    | .badJson => (.error (), cache, 1)
    | .payload none => (.ok none, cache, 1)
    | .payload (some sections) =>
      (.ok (resolveInSections env sections generatedLine generatedColumn),
        (chunkUrl, sections) :: cache, 1)

/-- `prefetchSourceMap` of `source-map.ts`: returns immediately on a cache
hit, otherwise fetches once and caches only a payload carrying `sections`;
every failure is swallowed by the surrounding `try`/`catch` (and the
`!resp.ok` early return). -/
def prefetchSourceMap (env : Env) (chunkUrl : String) (cache : SMCache) :
    SMCache × Nat :=
  match cacheGet cache chunkUrl with
  | some _ => (cache, 0)
  | none =>
    match env.oracle (chunkUrl ++ ".map") with
    | .payload (some sections) => ((chunkUrl, sections) :: cache, 1)
    | _ => (cache, 1)

/-! ## Runtime debug adapter — `src/lib/fiber.ts` -/

/-- React 18's `_debugSource` record: `fileName`, `lineNumber`,
`columnNumber`, each possibly absent. -/
structure DebugSource where
  fileName : Option String
  lineNumber : Option Int
  columnNumber : Option Int
deriving DecidableEq, Repr

/-- The `StackFrame` record of `src/types.ts`: chunk URL plus the two decimal
numbers parsed from the frame text. -/
structure StackFrame where
  chunkUrl : String
  line : Nat
  column : Nat
deriving DecidableEq, Repr

/-- A React Fiber node, restricted to the fields the engine reads: `tag`,
`_debugSource`, `_debugStack` (its `.stack` string, `none` when absent), and
the parent reference `return`.  As an inductive type this models the fiber
chains the host runtime actually produces (finite, acyclic); the separate heap
model further below covers arbitrary — possibly cyclic — parent graphs. -/
inductive Fiber where
  | mk (tag : Int) (debugSource : Option DebugSource) (debugStack : Option String)
      (ret : Option Fiber)

def Fiber.tag : Fiber → Int
  | .mk t _ _ _ => t

def Fiber.debugSource : Fiber → Option DebugSource
  | .mk _ d _ _ => d

def Fiber.debugStack : Fiber → Option String
  | .mk _ _ s _ => s

def Fiber.ret : Fiber → Option Fiber
  | .mk _ _ _ r => r

/-- `findNearestComponentFiber` of `fiber.ts`: walk up `return` until a node
with tag 0 (function component) or 1 (class component) is found. -/
def findNearestComponentFiber : Fiber → Option Fiber
  | .mk tag ds dk r =>
    if tag = 0 ∨ tag = 1 then some (.mk tag ds dk r)
    else
      match r with
      | none => none
      | some parent => findNearestComponentFiber parent

/-- `extractDebugSource` of `fiber.ts`: `null` unless `_debugSource` exists
and carries a truthy `fileName` (the empty string is falsy in JS); line and
column default to 1 and 0 via `??`. -/
def extractDebugSource (fiber : Fiber) : Option ResolvedSource :=
  match fiber.debugSource with
  | none => none
  | some source =>
    match source.fileName with
    | none => none
    | some f =>
      if f = "" then none
      else some
        { filePath := f,
          originalLine := source.lineNumber.getD 1,
          originalColumn := source.columnNumber.getD 0 }

/-- `pat` occurs as a contiguous substring starting at some position. -/
def listHasInfix (pat : List Char) : List Char → Bool
  | [] => pat.isEmpty
  | c :: rest => pat.isPrefixOf (c :: rest) || listHasInfix pat rest

/-- `pat` occurs as a contiguous substring of `s` (JS `String.includes`). -/
def hasSubstr (s pat : String) : Bool :=
  listHasInfix pat.toList s.toList

/-- The fixed denylist of React-internal frame markers skipped by
`extractStackFrame`. -/
def frameDenylist : List String :=
  ["jsxDEV", "react-stack-top-frame", "react_stack_bottom_frame", "react-dom",
   "renderWithHooks", "beginWork", "performUnitOfWork"]

/-- Parse one or more decimal digits (the greedy `\d+`), returning the number
and the remaining characters. -/
def parseDigits1 (cs : List Char) : Option (Nat × List Char) :=
  let ds := cs.takeWhile Char.isDigit
  if ds.isEmpty then none
  else some (ds.foldl (fun n c => n * 10 + (c.toNat - 48)) 0, cs.drop ds.length)

/-- Match the closing part `:(\d+):(\d+)\)` of the frame pattern at the
current position. -/
def matchClose : List Char → Option (Nat × Nat × List Char)
  | ':' :: rest =>
    match parseDigits1 rest with
    | some (l, rest2) =>
      match rest2 with
      | ':' :: rest3 =>
        match parseDigits1 rest3 with
        | some (c, rest4) =>
          match rest4 with
          | ')' :: rest5 => some (l, c, rest5)
          | _ => none
        | none => none
      | _ => none
    | none => none
  | _ => none

/-- Match the lazy URL body `[^)]+?` followed by the closing part: consume at
least one non-`)` character, preferring to close as early as possible —
exactly the lazy-quantifier semantics of the regex. -/
def matchUrlBody (revBody : List Char) : List Char → Option (List Char × Nat × Nat)
  | [] => none
  | c :: rest =>
    if c = ')' then none
    else
      match matchClose rest with
      | some (l, col, _) => some ((c :: revBody).reverse, l, col)
      | none => matchUrlBody (c :: revBody) rest

/-- Match the scheme `https?:\/\/` (the optional `s?` backtracks as the real
regex does). -/
def matchScheme (cs : List Char) : Option (String × List Char) :=
  if ("https://".toList).isPrefixOf cs then some ("https://", cs.drop 8)
  else if ("http://".toList).isPrefixOf cs then some ("http://", cs.drop 7)
  else none

/-- Try to match the whole pattern `\((https?:\/\/[^)]+?):(\d+):(\d+)\)` at
the current position. -/
def matchFrameAt : List Char → Option StackFrame
  | '(' :: rest =>
    match matchScheme rest with
    | some (scheme, rest2) =>
      match matchUrlBody [] rest2 with
      | some (body, l, c) => some { chunkUrl := scheme ++ String.mk body, line := l, column := c }
      | none => none
    | none => none
  | _ => none

/-- Find the leftmost match of the frame pattern in a line (the regex engine
scans candidate start positions left to right). -/
def scanFrame : List Char → Option StackFrame
  | [] => none
  | c :: rest =>
    match matchFrameAt (c :: rest) with
    | some f => some f
    | none => scanFrame rest

/-- The per-line loop of `extractStackFrame`: skip lines without `"at "`,
skip denylisted React-internal frames, and return the first line whose text
matches the URL pattern. -/
def findFrameInLines : List String → Option StackFrame
  | [] => none
  | line :: rest =>
    if !(hasSubstr line "at ") then findFrameInLines rest
    else if frameDenylist.any (fun m => hasSubstr line m) then findFrameInLines rest
    else
      match scanFrame line.toList with
      | some f => some f
      | none => findFrameInLines rest

/-- `extractStackFrame` of `fiber.ts`: `null` unless the debug-stack object
exists and has a `.stack` string; otherwise scan its lines. -/
def extractStackFrame (debugStack : Option String) : Option StackFrame :=
  match debugStack with
  | none => none
  | some stack => findFrameInLines (splitStr (fun c => c == '\n') stack)

/-! ## Orchestrator — `src/Locator.tsx` -/

/-- The DOM element handed to the orchestrator, reduced to the only datum the
attribute fast path reads. -/
structure LocatorElement where
  locatorSource : Option ResolvedSource

/-- Modelled from the spec: `extractDataLocatorSource` is imported from
`lib/fiber` but its definition is not part of the sources under review; per
the spec's attribute path, it parses an already-baked location marker on the
target element and returns it directly, or fails when the marker is absent. -/
def extractDataLocatorSource (element : LocatorElement) : Option ResolvedSource :=
  element.locatorSource

/-- `resolveComponentSource` of `Locator.tsx`: the strict priority chain —
(1) the compile-time `data-locator-source` attribute when an element is
supplied, (2) React 18's `_debugSource`, (3) React 19's `_debugStack` (retried
once on the nearest component fiber when the immediate handle yields no
frame) handed to the source-map resolver. -/
def resolveComponentSource (env : Env) (fiber : Fiber) (cache : SMCache)
    (element : Option LocatorElement) :
    Except Unit (Option ResolvedSource) × SMCache × Nat :=
  match element.bind extractDataLocatorSource with
  | some attrSource => (.ok (some attrSource), cache, 0)
  | none =>
    match extractDebugSource fiber with
    | some debugSource => (.ok (some debugSource), cache, 0)
    | none =>
      let stackInfo :=
        match extractStackFrame fiber.debugStack with
        | some f => some f
        | none =>
          (findNearestComponentFiber fiber).bind fun cf =>
            extractStackFrame cf.debugStack
      match stackInfo with
      | none => (.ok none, cache, 0)
      | some info => resolveSourceMap env info.chunkUrl info.line info.column cache

/-! ## Heap model of the fiber graph

JS fiber nodes are mutable objects whose `return` references may in principle
form cycles; the inductive `Fiber` type cannot represent such graphs.  The
heap model below does: nodes are addressed by `Nat`, and the unbounded
`while (current)` loop of `findNearestComponentFiber` is unrolled with explicit
fuel — a result of `none` for every fuel means the loop never exits. -/

/-- A fiber node in the heap model: tag, parent address, and the component
display name `getComponentName` would report (already collapsing the JS
`displayName || name || null` chain). -/
structure HeapFiberNode where
  tag : Int
  ret : Option Nat
  name : Option String

/-- The `while (current)` loop of `findNearestComponentFiber`, unrolled
`fuel` times over a heap of fiber nodes.  `some r` means the JS loop exits
with result `r` within `fuel` iterations; `none` means it is still running. -/
def findNearestComponentFiberFuel (heap : Nat → HeapFiberNode) :
    Option Nat → Nat → Option (Option Nat)
  | _, 0 => none
  | current, fuel + 1 =>
    match current with
    | none => some none
    | some id =>
      let node := heap id
      if node.tag = 0 ∨ node.tag = 1 then some (some id)
      else findNearestComponentFiberFuel heap node.ret fuel

/-- `collectComponentAncestry` of `fiber.ts` over the heap model: the
`while (current && depth < maxDepth)` loop, with `depthRemaining` counting the
iterations left out of the default cap `maxDepth = 20`.  A component node
with a name is collected; traversal always steps to `return`. -/
def collectComponentAncestryHeap (heap : Nat → HeapFiberNode) :
    Option Nat → Nat → List (Nat × String)
  | none, _ => []
  | some _, 0 => []
  | some id, depthRemaining + 1 =>
    let node := heap id
    let tail := collectComponentAncestryHeap heap node.ret depthRemaining
    if node.tag = 0 ∨ node.tag = 1 then
      match node.name with
      | some n => (id, n) :: tail
      | none => tail
    else tail

/-! ## Concrete fixtures used by the claim theorems -/

/-- The single-section map of the end-to-end scenario: line offset 0, first
source `turbopack:///[project]/src/App.tsx`, and a mappings string whose line
index 10 holds the one segment `IAmBE`, i.e. the deltas `[4, 0, 19, 2]` —
generated column 4 mapping to 0-indexed original line 19 (reported as 20),
original column 2. -/
def e2eSection : MapSection :=
  { offsetLine := 0,
    sources := ["turbopack:///[project]/src/App.tsx"],
    mappings := ";;;;;;;;;;IAmBE" }

/-- The retrieval environment of the end-to-end scenario: the unit
`https://host/chunk.js` has the one-section map above; the ambient project
root is `/projectRoot`. -/
def e2eEnv : Env :=
  { oracle := fun url =>
      if url = "https://host/chunk.js.map" then .payload (some [e2eSection])
      else .netError,
    envProjectRoot := some "/projectRoot" }

/-- An environment whose every retrieval yields a non-success HTTP status. -/
def failEnv : Env := { oracle := fun _ => .httpError, envProjectRoot := none }

/-- An environment whose every retrieval rejects with a network error. -/
def netEnv : Env := { oracle := fun _ => .netError, envProjectRoot := none }

/-- A cyclic fiber heap: a single non-component node (tag 5, a host element)
whose `return` reference points back to itself. -/
def cyclicHeap : Nat → HeapFiberNode :=
  fun _ => { tag := 5, ret := some 0, name := none }

/-! ## Helper lemmas -/

theorem isPrefixOf_append_self (l r : List Char) : l.isPrefixOf (l ++ r) = true := by
  induction l with
  | nil => simp [List.isPrefixOf]
  | cons c cs ih => simp [List.isPrefixOf, ih]

theorem dropAfterMatch_append_self (c : Char) (p r : List Char) :
    dropAfterMatch (c :: p) ((c :: p) ++ r) = some r := by
  have h1 : (c :: p) ++ r = c :: (p ++ r) := rfl
  rw [h1, dropAfterMatch]
  rw [← h1, if_pos (isPrefixOf_append_self (c :: p) r)]
  rw [List.drop_left]

theorem takeWhile_eq_self_of_all {α : Type} (p : α → Bool) :
    ∀ (l : List α), (∀ c ∈ l, p c = true) → l.takeWhile p = l := by
  intro l
  induction l with
  | nil => intro _; rfl
  | cons c cs ih =>
    intro h
    rw [List.takeWhile_cons, h c (List.mem_cons_self c cs)]
    simp [ih fun x hx => h x (List.mem_cons_of_mem c hx)]

theorem toList_append_eq (s t : String) : (s ++ t).toList = s.toList ++ t.toList := by
  simp [String.toList]

theorem mk_toList_eq (s : String) : String.mk s.toList = s := rfl

/-! ## Claim theorems -/

/-- C1.  End-to-end resolution: for the bundle unit `https://host/chunk.js`
whose fetched map has one section with line offset 0 and first source
`turbopack:///[project]/src/App.tsx`, and whose mappings encode generated
line 10, column 4 to original line 20, column 2, resolving `(line=10,
column=4)` returns `{filePath: "/projectRoot/src/App.tsx", originalLine: 20,
originalColumn: 2}` when the (environment-sourced) project root
`/projectRoot` is supplied — and the resolution performs exactly one
retrieval and caches the section list.  In general, a source name of the
virtual scheme shape `turbopack:///[project]/<rest>` is translated by
treating `<rest>` as project-relative, unless it already looks like an
OS-absolute path fragment (starting with `Users/` or `home/`), in which case
it is prefixed with `/`. -/
theorem c1_end_to_end_resolution :
    (resolveSourceMap e2eEnv "https://host/chunk.js" 10 4 [] =
      (.ok (some { filePath := "/projectRoot/src/App.tsx", originalLine := 20,
                   originalColumn := 2 }),
       [("https://host/chunk.js", [e2eSection])], 1))
    ∧ (∀ (rest : String) (projectRoot envRoot : Option String),
        '\n' ∉ rest.toList →
        extractPathFromTurbopack ("turbopack:///[project]/" ++ rest) projectRoot envRoot =
          if strStartsWith rest "Users/" || strStartsWith rest "home/" then "/" ++ rest
          else projectRoot.getD (envRoot.getD "") ++ "/" ++ rest) := by
  constructor
  · rfl
  · intro rest projectRoot envRoot hnl
    rw [extractPathFromTurbopack]
    have hsplit : ("turbopack:///[project]/" ++ rest).toList =
        turboPat.toList ++ rest.toList := by
      rw [toList_append_eq]; rfl
    have hpat : turboPat.toList = 't' :: "urbopack:///[project]/".toList := rfl
    have hdrop : dropAfterMatch turboPat.toList
        ("turbopack:///[project]/" ++ rest).toList = some rest.toList := by
      rw [hsplit, hpat]
      exact dropAfterMatch_append_self _ _ _
    rw [hdrop]
    have htake : rest.toList.takeWhile (fun c => decide (c ≠ '\n')) = rest.toList := by
      apply takeWhile_eq_self_of_all
      intro c hc
      simp only [decide_eq_true_eq]
      intro h
      exact hnl (h ▸ hc)
    simp only [htake, mk_toList_eq]

theorem c1_witness :
    extractPathFromTurbopack ("turbopack:///[project]/" ++ "src/App.tsx") none
      (some "/projectRoot") = "/projectRoot/src/App.tsx" :=
  (c1_end_to_end_resolution.2 "src/App.tsx" none (some "/projectRoot")
    (by decide)).trans (by decide)

/-- C2.  Priority chain of the orchestrator `resolveComponentSource`: the
three strategies run in strict order and the first success stops the chain —
an already-baked attribute location on the element is returned with no
further steps and no retrieval call; otherwise a structured `_debugSource`
record with a (truthy) filename is returned synchronously, line defaulting to
1 and column to 0 when absent, with no retrieval call; only otherwise is a
stack frame extracted (retrying once on the nearest component fiber) and
handed to the source-map resolver. -/
theorem c2_priority_chain :
    ∀ (env : Env) (fiber : Fiber) (cache : SMCache) (element : Option LocatorElement),
      (∀ e r, element = some e → extractDataLocatorSource e = some r →
        resolveComponentSource env fiber cache element = (.ok (some r), cache, 0))
      ∧ (element.bind extractDataLocatorSource = none →
         ∀ r, extractDebugSource fiber = some r →
          resolveComponentSource env fiber cache element = (.ok (some r), cache, 0))
      ∧ (element.bind extractDataLocatorSource = none →
         extractDebugSource fiber = none →
          resolveComponentSource env fiber cache element =
            (match (match extractStackFrame fiber.debugStack with
                    | some f => some f
                    | none =>
                      (findNearestComponentFiber fiber).bind fun cf =>
                        extractStackFrame cf.debugStack) with
             | none => (.ok none, cache, 0)
             | some info =>
                resolveSourceMap env info.chunkUrl info.line info.column cache))
      ∧ (∀ ds fn, fiber.debugSource = some ds → ds.fileName = some fn → fn ≠ "" →
          extractDebugSource fiber =
            some { filePath := fn, originalLine := ds.lineNumber.getD 1,
                   originalColumn := ds.columnNumber.getD 0 }) := by
  intro env fiber cache element
  refine ⟨?_, ?_, ?_, ?_⟩
  · intro e r he hr
    simp only [resolveComponentSource, he, Option.bind, hr]
  · intro hattr r hr
    rw [resolveComponentSource, hattr, hr]
  · intro hattr hds
    rw [resolveComponentSource, hattr, hds]
  · intro ds fn hds hfn hne
    simp only [extractDebugSource, hds, hfn, if_neg hne]

theorem c2_witness :
    resolveComponentSource netEnv (.mk 0 none none none) []
      (some { locatorSource := some { filePath := "/p/a.tsx", originalLine := 3,
                                      originalColumn := 1 } }) =
      (.ok (some { filePath := "/p/a.tsx", originalLine := 3, originalColumn := 1 }),
       [], 0) :=
  (c2_priority_chain netEnv (.mk 0 none none none) []
      (some { locatorSource := some { filePath := "/p/a.tsx", originalLine := 3,
                                      originalColumn := 1 } })).1
    _ _ rfl rfl

theorem findMatchedSection_eq (sections : List MapSection) (line : Nat) :
    findMatchedSection sections line =
      sections.reverse.find? (fun s => decide (s.offsetLine ≤ line)) := by
  induction sections with
  | nil => rfl
  | cons s rest ih =>
    rw [findMatchedSection, ih, List.reverse_cons, List.find?_append]
    cases h : rest.reverse.find? (fun s => decide (s.offsetLine ≤ line)) with
    | some m => rfl
    | none =>
      simp only [Option.none_or, List.find?_cons, List.find?_nil]
      by_cases hle : s.offsetLine ≤ line
      · simp [hle]
      · simp [hle]

/-- C3.  Section selection: for every cached sectioned map and every query
line, the resolver scans sections from the end and selects the first
(highest-offset) section whose line offset is `≤ line` (equivalently, the
reverse-order `find?`); if no section qualifies, or the chosen section has no
source name, the result is null; otherwise it decodes at the section-relative
line `line − offset`.  In particular, for sections with offsets
`[0, 50, 120]`, a query at line 75 selects the section with offset 50. -/
theorem c3_section_selection :
    ∀ (env : Env) (chunkUrl : String) (line col : Nat) (cache : SMCache)
      (sections : List MapSection),
      cacheGet cache chunkUrl = some sections →
      (findMatchedSection sections line =
        sections.reverse.find? (fun s => decide (s.offsetLine ≤ line)))
      ∧ ((findMatchedSection sections line = none ∨
          ∃ s, findMatchedSection sections line = some s ∧ s.sources = []) →
          resolveSourceMap env chunkUrl line col cache = (.ok none, cache, 0))
      ∧ (∀ s uri others, findMatchedSection sections line = some s →
          s.sources = uri :: others →
          resolveSourceMap env chunkUrl line col cache =
            (.ok (some
              { filePath := sourceUriToPath env uri,
                originalLine :=
                  match decodeOriginalPosition s.mappings (line - s.offsetLine) (col : Int) with
                  | some p => p.originalLine
                  | none => 1,
                originalColumn :=
                  match decodeOriginalPosition s.mappings (line - s.offsetLine) (col : Int) with
                  | some p => p.originalColumn
                  | none => 0 }), cache, 0))
      ∧ (findMatchedSection
          [⟨0, ["a"], ""⟩, ⟨50, ["b"], ""⟩, ⟨120, ["c"], ""⟩] 75 =
          some ⟨50, ["b"], ""⟩) := by
  intro env chunkUrl line col cache sections hcache
  refine ⟨findMatchedSection_eq sections line, ?_, ?_, by decide⟩
  · intro h
    rw [resolveSourceMap, hcache]
    rcases h with h | ⟨s, hs, hsrc⟩
    · simp only [resolveInSections, h]
    · simp only [resolveInSections, hs, hsrc]
  · intro s uri others hs hsrc
    rw [resolveSourceMap, hcache]
    simp only [resolveInSections, hs, hsrc]

theorem c3_witness :
    resolveSourceMap netEnv "https://u/s.js" 75 0
      [("https://u/s.js", [⟨0, [], ""⟩, ⟨50, [], ""⟩, ⟨120, [], ""⟩])] =
      (.ok none, [("https://u/s.js", [⟨0, [], ""⟩, ⟨50, [], ""⟩, ⟨120, [], ""⟩])], 0) :=
  (c3_section_selection netEnv "https://u/s.js" 75 0
      [("https://u/s.js", [⟨0, [], ""⟩, ⟨50, [], ""⟩, ⟨120, [], ""⟩])]
      [⟨0, [], ""⟩, ⟨50, [], ""⟩, ⟨120, [], ""⟩] rfl).2.1
    (Or.inr ⟨⟨50, [], ""⟩, by decide, rfl⟩)

/-- C4 counterexample.  The claim's "at most one retrieval call in total" for
two sequential resolutions of the same `(unit, line, column)` is false when
the retrieval fails: with an oracle answering every fetch with a non-success
HTTP status, nothing is cached and both resolutions fetch — two retrieval
calls in total. -/
theorem c4_counterexample :
    ¬((resolveSourceMap failEnv "https://u/c.js" 0 0 []).2.2 +
      (resolveSourceMap failEnv "https://u/c.js" 0 0
        (resolveSourceMap failEnv "https://u/c.js" 0 0 []).2.1).2.2 ≤ 1) := by
  decide

/-- C4, amended.  Provided the unit is already cached or the retrieval
succeeds with a sectioned payload, resolving the same `(unit, line, column)`
twice in sequence yields identical results and performs at most one retrieval
call in total: the store is consulted before any retrieval (a cache hit
performs none), is populated immediately on success, the cached map is never
replaced, and the second request is answered entirely from the cache (zero
retrieval calls, cache unchanged). -/
theorem c4_idempotence :
    ∀ (env : Env) (chunkUrl : String) (line col : Nat) (cache : SMCache),
      ((cacheGet cache chunkUrl).isSome ∨
        ∃ s, env.oracle (chunkUrl ++ ".map") = .payload (some s)) →
      ((resolveSourceMap env chunkUrl line col
          (resolveSourceMap env chunkUrl line col cache).2.1).1 =
        (resolveSourceMap env chunkUrl line col cache).1)
      ∧ ((resolveSourceMap env chunkUrl line col
          (resolveSourceMap env chunkUrl line col cache).2.1).2.1 =
        (resolveSourceMap env chunkUrl line col cache).2.1)
      ∧ ((resolveSourceMap env chunkUrl line col
          (resolveSourceMap env chunkUrl line col cache).2.1).2.2 = 0)
      ∧ ((resolveSourceMap env chunkUrl line col cache).2.2 +
         (resolveSourceMap env chunkUrl line col
           (resolveSourceMap env chunkUrl line col cache).2.1).2.2 ≤ 1)
      ∧ (∀ s, cacheGet cache chunkUrl = some s →
          (resolveSourceMap env chunkUrl line col cache).2.2 = 0) := by
  intro env chunkUrl line col cache hyp
  cases hc : cacheGet cache chunkUrl with
  | some s =>
    refine ⟨?_, ?_, ?_, ?_, ?_⟩ <;> simp [resolveSourceMap, hc]
  | none =>
    rcases hyp with hyp | ⟨s, hp⟩
    · rw [hc] at hyp; exact absurd hyp (by simp)
    · have hget : cacheGet ((chunkUrl, s) :: cache) chunkUrl = some s := by
        simp [cacheGet]
      refine ⟨?_, ?_, ?_, ?_, ?_⟩
      · simp [resolveSourceMap, hc, hp, hget]
      · simp [resolveSourceMap, hc, hp, hget]
      · simp [resolveSourceMap, hc, hp, hget]
      · simp [resolveSourceMap, hc, hp, hget]
      · intro s' hs'
        exact Option.noConfusion hs'

theorem c4_witness :
    ((resolveSourceMap e2eEnv "https://host/chunk.js" 10 4
        (resolveSourceMap e2eEnv "https://host/chunk.js" 10 4 []).2.1).1 =
      (resolveSourceMap e2eEnv "https://host/chunk.js" 10 4 []).1)
    ∧ ((resolveSourceMap e2eEnv "https://host/chunk.js" 10 4
        (resolveSourceMap e2eEnv "https://host/chunk.js" 10 4 []).2.1).2.2 = 0) :=
  ⟨(c4_idempotence e2eEnv "https://host/chunk.js" 10 4 []
      (Or.inr ⟨[e2eSection], rfl⟩)).1,
   (c4_idempotence e2eEnv "https://host/chunk.js" 10 4 []
      (Or.inr ⟨[e2eSection], rfl⟩)).2.2.1⟩

/-- The fetch outcomes the spec calls a failed retrieval: everything except a
parsed payload that carries `sections`. -/
def isFailedFetch : FetchOutcome → Bool
  | .payload (some _) => false
  | _ => true

/-- C5 counterexample.  A network error does not make the resolution "return
null": `resolveSourceMap` has no `try`/`catch`, so the rejected fetch
propagates as a rejected promise (`Except.error`), which is not the `null`
resolution the claim describes. -/
theorem c5_counterexample :
    (resolveSourceMap netEnv "https://u/d.js" 0 0 []).1 = .error () ∧
    (resolveSourceMap netEnv "https://u/d.js" 0 0 []).1 ≠ .ok none := by
  refine ⟨rfl, ?_⟩
  intro h
  exact Except.noConfusion ((rfl : (resolveSourceMap netEnv "https://u/d.js" 0 0 []).1 = .error ()).symm.trans h)

/-- C5, amended.  For every uncached unit, a failed retrieval leaves the
cache unchanged and stores no negative result, so a subsequent request for
the same unit retries retrieval (performing a fetch again); a non-success
status or a payload missing `sections` surfaces as a `null` resolution, while
a network error or an unparseable JSON body propagates as a rejected promise
(the function has no `try`/`catch`).  The prefetch operation swallows every
failure, also leaving the cache unchanged, and has the same at-most-once
behaviour: it performs no retrieval when the unit is cached. -/
theorem c5_error_atomicity :
    ∀ (env : Env) (chunkUrl : String) (line col : Nat) (cache : SMCache),
      (cacheGet cache chunkUrl = none →
        (env.oracle (chunkUrl ++ ".map") = .httpError →
            resolveSourceMap env chunkUrl line col cache = (.ok none, cache, 1))
        ∧ (env.oracle (chunkUrl ++ ".map") = .payload none →
            resolveSourceMap env chunkUrl line col cache = (.ok none, cache, 1))
        ∧ (env.oracle (chunkUrl ++ ".map") = .netError →
            resolveSourceMap env chunkUrl line col cache = (.error (), cache, 1))
        ∧ (env.oracle (chunkUrl ++ ".map") = .badJson →
            resolveSourceMap env chunkUrl line col cache = (.error (), cache, 1))
        ∧ (isFailedFetch (env.oracle (chunkUrl ++ ".map")) = true →
            (resolveSourceMap env chunkUrl line col cache).2.1 = cache
            ∧ (resolveSourceMap env chunkUrl line col
                (resolveSourceMap env chunkUrl line col cache).2.1).2.2 = 1
            ∧ prefetchSourceMap env chunkUrl cache = (cache, 1)))
      ∧ (∀ s, cacheGet cache chunkUrl = some s →
          prefetchSourceMap env chunkUrl cache = (cache, 0)) := by
  intro env chunkUrl line col cache
  constructor
  · intro hc
    refine ⟨?_, ?_, ?_, ?_, ?_⟩
    · intro ho; rw [resolveSourceMap, hc, ho]
    · intro ho; rw [resolveSourceMap, hc, ho]
    · intro ho; rw [resolveSourceMap, hc, ho]
    · intro ho; rw [resolveSourceMap, hc, ho]
    · intro hfail
      cases ho : env.oracle (chunkUrl ++ ".map") with
      | netError => simp [resolveSourceMap, prefetchSourceMap, hc, ho]
      | httpError => simp [resolveSourceMap, prefetchSourceMap, hc, ho]
      | badJson => simp [resolveSourceMap, prefetchSourceMap, hc, ho]
      | payload sections =>
        cases sections with
        | none => simp [resolveSourceMap, prefetchSourceMap, hc, ho]
        | some s =>
          rw [ho] at hfail
          have hf : isFailedFetch (FetchOutcome.payload (some s)) = false := rfl
          rw [hf] at hfail
          exact Bool.noConfusion hfail
  · intro s hs
    rw [prefetchSourceMap, hs]

theorem c5_witness :
    resolveSourceMap failEnv "https://u/e.js" 0 0 [] = (.ok none, [], 1) :=
  (((c5_error_atomicity failEnv "https://u/e.js" 0 0 []).1 rfl).1) rfl

theorem decodeSegChars_invalid :
    ∀ (chars : List Char) (v sh : Nat) (acc : List Int) (c : Char),
      c ∈ chars → base64Index c = none → decodeSegChars chars v sh acc = none := by
  intro chars
  induction chars with
  | nil =>
    intro _ _ _ c hc _
    exact absurd hc (List.not_mem_nil c)
  | cons a rest ih =>
    intro v sh acc c hc hnone
    rw [decodeSegChars]
    rcases List.mem_cons.mp hc with rfl | hmem
    · rw [hnone]
    · cases hb : base64Index a with
      | none => rfl
      | some digit =>
        dsimp only
        by_cases hd : 32 ≤ digit
        · rw [if_pos hd]; exact ih _ _ _ c hmem hnone
        · rw [if_neg hd]; exact ih _ _ _ c hmem hnone

/-- C6.  VLQ token decoding: a character outside the 64-symbol alphabet fails
the whole segment; a single group with continuation bit clear decodes, via the
sign step, to its 5-bit payload with the least-significant bit as sign flag; a
continued group contributes its low 5 bits as the less-significant part and
the following group is shifted left by 5 (little-endian); and the token `H`
(raw value 7 — sign bit 1, magnitude 3) yields `-3`. -/
theorem c6_vlq_token_decoding :
    (∀ (s : String) (c : Char), c ∈ s.toList → base64Index c = none →
        decodeVLQSegment s = none)
    ∧ (∀ (s : String) (c : Char) (d : Nat), s.toList = [c] →
        base64Index c = some d → d < 32 →
        decodeVLQSegment s = some [vlqSign d])
    ∧ (∀ (s : String) (c1 c2 : Char) (d1 d2 : Nat), s.toList = [c1, c2] →
        base64Index c1 = some d1 → base64Index c2 = some d2 →
        32 ≤ d1 → d2 < 32 →
        decodeVLQSegment s = some [vlqSign (d1 % 32 + d2 * 32)])
    ∧ decodeVLQSegment "H" = some [-3] := by
  refine ⟨?_, ?_, ?_, by decide⟩
  · intro s c hc hn
    have hne : s ≠ "" := by
      intro h
      rw [h] at hc
      exact absurd (show c ∈ ([] : List Char) from hc) (List.not_mem_nil c)
    rw [decodeVLQSegment, if_neg hne]
    exact decodeSegChars_invalid _ _ _ _ c hc hn
  · intro s c d hs hb hd
    have hne : s ≠ "" := by
      intro h
      rw [h] at hs
      exact List.noConfusion (show ([] : List Char) = [c] from hs)
    rw [decodeVLQSegment, if_neg hne, hs, decodeSegChars, hb]
    dsimp only
    rw [if_neg (Nat.not_le.mpr hd)]
    simp [decodeSegChars, Nat.mod_eq_of_lt hd]
  · intro s c1 c2 d1 d2 hs hb1 hb2 hd1 hd2
    have hne : s ≠ "" := by
      intro h
      rw [h] at hs
      exact List.noConfusion (show ([] : List Char) = [c1, c2] from hs)
    rw [decodeVLQSegment, if_neg hne, hs, decodeSegChars, hb1]
    dsimp only
    rw [if_pos hd1, decodeSegChars, hb2]
    dsimp only
    rw [if_neg (Nat.not_le.mpr hd2)]
    have harith : 0 + d1 % 32 * 2 ^ 0 + d2 % 32 * 2 ^ 5 = d1 % 32 + d2 * 32 := by
      rw [Nat.mod_eq_of_lt hd2]
      have h0 : (2 : Nat) ^ 0 = 1 := rfl
      have h5 : (2 : Nat) ^ 5 = 32 := rfl
      rw [h0, h5]
      omega
    rw [harith]
    simp [decodeSegChars]

theorem c6_witness :
    decodeVLQSegment "I!A" = none ∧ decodeVLQSegment "C" = some [1] ∧
    decodeVLQSegment "gB" = some [16] := by
  refine ⟨c6_vlq_token_decoding.1 "I!A" '!' (by decide) (by decide), ?_, ?_⟩
  · exact (c6_vlq_token_decoding.2.1 "C" 'C' 2 rfl (by decide) (by decide)).trans
      (by decide)
  · exact (c6_vlq_token_decoding.2.2.1 "gB" 'g' 'B' 32 1 rfl (by decide) (by decide)
      (by decide) (by decide)).trans (by decide)

theorem runSegments_false (tc : Int) :
    ∀ (segs : List String) (acc : MappingAcc),
      runSegments tc false segs acc = .ok (foldSegs segs acc) := by
  intro segs
  induction segs with
  | nil => intro acc; rfl
  | cons seg rest ih =>
    intro acc
    rw [runSegments, foldSegs]
    cases hd : segmentDeltas seg with
    | none => exact ih acc
    | some d =>
      dsimp only
      rw [if_neg (by simp)]
      exact ih (stepAcc acc d)

theorem runSegments_true (tc : Int) :
    ∀ (segs : List String) (acc : MappingAcc),
      runSegments tc true segs acc =
        match (lineStates segs acc).find? (fun a => decide (tc ≤ a.genCol)) with
        | some a => .error (posOf a)
        | none => .ok (foldSegs segs acc) := by
  intro segs
  induction segs with
  | nil => intro acc; rfl
  | cons seg rest ih =>
    intro acc
    rw [runSegments, foldSegs, lineStates]
    cases hd : segmentDeltas seg with
    | none => exact ih acc
    | some d =>
      dsimp only
      rw [List.find?_cons]
      by_cases hcol : tc ≤ (stepAcc acc d).genCol
      · rw [if_pos ⟨rfl, hcol⟩]
        simp [hcol]
      · rw [if_neg (by simp [hcol])]
        rw [decide_eq_false hcol]
        exact ih (stepAcc acc d)

theorem foldSegs_getLast :
    ∀ (segs : List String) (acc : MappingAcc),
      foldSegs segs acc = ((lineStates segs acc).getLast?).getD acc := by
  intro segs
  induction segs with
  | nil => intro acc; rfl
  | cons seg rest ih =>
    intro acc
    rw [foldSegs, lineStates]
    cases hd : segmentDeltas seg with
    | none => exact ih acc
    | some d =>
      dsimp only
      rw [ih (stepAcc acc d)]
      cases hl : lineStates rest (stepAcc acc d) with
      | nil => rfl
      | cons b l' =>
        rw [List.getLast?_cons_cons, List.getLast?_cons]
        rfl

theorem walkLines_characterization (tc : Int) :
    ∀ (lines : List String) (tl : Nat) (acc : MappingAcc), tl < lines.length →
      walkLines tc lines tl acc =
        match (lineStates (splitStr (fun c => c == ',') (lines.getD tl ""))
            { foldLinesAcc (lines.take tl) acc with genCol := 0 }).find?
            (fun a => decide (tc ≤ a.genCol)) with
        | some a => posOf a
        | none => posOf (foldLine (lines.getD tl "") (foldLinesAcc (lines.take tl) acc)) := by
  intro lines
  induction lines with
  | nil =>
    intro tl acc h
    exact absurd h (by simp)
  | cons l rest ih =>
    intro tl acc h
    cases tl with
    | zero =>
      simp only [List.getD_cons_zero, List.take_zero, foldLinesAcc]
      rw [walkLines]
      by_cases hl : l = ""
      · subst hl
        rfl
      · rw [if_neg hl]
        have h00 : ((0 : Nat) == 0) = true := rfl
        rw [h00, runSegments_true tc]
        cases hf : (lineStates (splitStr (fun c => c == ',') l)
            { acc with genCol := 0 }).find? (fun a => decide (tc ≤ a.genCol)) with
        | some a => rfl
        | none =>
          rw [foldLine, if_neg hl]
    | succ tl' =>
      simp only [List.getD_cons_succ, List.take_succ_cons, foldLinesAcc]
      rw [walkLines]
      by_cases hl : l = ""
      · subst hl
        rw [if_pos rfl]
        rw [show foldLine "" acc = acc from rfl]
        exact ih tl' acc (Nat.lt_of_succ_lt_succ h)
      · rw [if_neg hl]
        have hsucc : ((tl' + 1 : Nat) == 0) = false := by simp
        rw [hsucc, runSegments_false tc]
        rw [show foldSegs (splitStr (fun c => c == ',') l) { acc with genCol := 0 } =
            foldLine l acc from (by rw [foldLine, if_neg hl])]
        exact ih tl' (foldLine l acc) (Nat.lt_of_succ_lt_succ h)

/-- C7.  Column coverage of the mapping-table decoder: the result is null
exactly when the target line index is beyond the table's line count;
otherwise the decoder walks lines 0..targetLine inclusive (accumulating the
carried state `foldLinesAcc` over the earlier lines) and, within the target
line, returns the first decoded position whose running generated column is
`≥ targetColumn`; if no segment on that line meets the threshold it returns
the position of the final accumulator state, which (third conjunct) is the
last decoded state of the line, or the carried-in state when the line decodes
nothing.  `posOf` reports `originalLine` 1-indexed. -/
theorem c7_column_coverage :
    ∀ (m : String) (tl : Nat) (tc : Int),
      (decodeOriginalPosition m tl tc = none ↔
        (splitStr (fun c => c == ';') m).length ≤ tl)
      ∧ (tl < (splitStr (fun c => c == ';') m).length →
          decodeOriginalPosition m tl tc = some (
            match (lineStates
                (splitStr (fun c => c == ',')
                  ((splitStr (fun c => c == ';') m).getD tl ""))
                { foldLinesAcc ((splitStr (fun c => c == ';') m).take tl)
                    ⟨0, 0, 0, 0⟩ with genCol := 0 }).find?
                (fun a => decide (tc ≤ a.genCol)) with
            | some a => posOf a
            | none =>
              posOf (foldLine ((splitStr (fun c => c == ';') m).getD tl "")
                (foldLinesAcc ((splitStr (fun c => c == ';') m).take tl)
                  ⟨0, 0, 0, 0⟩))))
      ∧ (∀ (segs : List String) (acc : MappingAcc),
          foldSegs segs acc = ((lineStates segs acc).getLast?).getD acc) := by
  intro m tl tc
  refine ⟨?_, ?_, foldSegs_getLast⟩
  · simp only [decodeOriginalPosition]
    by_cases h : (splitStr (fun c => c == ';') m).length ≤ tl
    · rw [if_pos h]
      simp [h]
    · rw [if_neg h]
      simp [h]
  · intro h
    simp only [decodeOriginalPosition]
    rw [if_neg (by omega)]
    exact congrArg some (walkLines_characterization tc _ tl _ h)

theorem c7_witness :
    decodeOriginalPosition "IAmBE" 0 4 =
      some { originalLine := 20, originalColumn := 2 } :=
  ((c7_column_coverage "IAmBE" 0 4).2.1 (by decide)).trans (by decide)

theorem runSegments_append_bad (tc : Int) (chk : Bool) (bad : String)
    (hbad : segmentDeltas bad = none) :
    ∀ (xs ys : List String) (acc : MappingAcc),
      runSegments tc chk (xs ++ bad :: ys) acc = runSegments tc chk (xs ++ ys) acc := by
  intro xs
  induction xs with
  | nil =>
    intro ys acc
    rw [List.nil_append, List.nil_append, runSegments, hbad]
  | cons x xs' ih =>
    intro ys acc
    rw [List.cons_append, List.cons_append, runSegments, runSegments]
    cases hd : segmentDeltas x with
    | none => exact ih ys acc
    | some d =>
      dsimp only
      by_cases hcol : chk = true ∧ tc ≤ (stepAcc acc d).genCol
      · rw [if_pos hcol, if_pos hcol]
      · rw [if_neg hcol, if_neg hcol]
        exact ih ys (stepAcc acc d)

theorem walkLines_congr_line (tc : Int) (l l' : String) (hl : l ≠ "") (hl' : l' ≠ "")
    (hrs : ∀ (chk : Bool) (acc2 : MappingAcc),
      runSegments tc chk (splitStr (fun c => c == ',') l) acc2 =
      runSegments tc chk (splitStr (fun c => c == ',') l') acc2) :
    ∀ (pre post : List String) (tl : Nat) (acc : MappingAcc),
      walkLines tc (pre ++ l :: post) tl acc =
      walkLines tc (pre ++ l' :: post) tl acc := by
  intro pre
  induction pre with
  | nil =>
    intro post tl acc
    rw [List.nil_append, List.nil_append]
    cases tl with
    | zero => rw [walkLines, walkLines, if_neg hl, if_neg hl', hrs]
    | succ tl' => rw [walkLines, walkLines, if_neg hl, if_neg hl', hrs]
  | cons p pre' ih =>
    intro post tl acc
    rw [List.cons_append, List.cons_append]
    cases tl with
    | zero => rw [walkLines, walkLines]
    | succ tl' =>
      rw [walkLines, walkLines]
      by_cases hp : p = ""
      · rw [if_pos hp, if_pos hp]
        exact ih post tl' acc
      · rw [if_neg hp, if_neg hp]
        cases hr : runSegments tc ((tl' + 1 : Nat) == 0) (splitStr (fun c => c == ',') p)
            { acc with genCol := 0 } with
        | error pos => rfl
        | ok acc' => exact ih post tl' acc'

/-- C8.  Segment-level best effort: an unparseable segment (token decoding
fails, or fewer than the required 4 fields — i.e. `segmentDeltas` is `none`)
is skipped without failing the table.  With the running totals rebuilt across
commas and semicolons and the accumulators from before the bad segment
carried forward, a mappings string containing the bad segment decodes every
query to exactly the same value as the string with the corrupt segment
absent — positions in later segments of the same line and on later lines are
unaffected. -/
theorem c8_segment_skip :
    ∀ (m m' : String) (tl : Nat) (tc : Int) (pre post : List String)
      (l l' : String) (xs ys : List String) (bad : String),
      segmentDeltas bad = none →
      splitStr (fun c => c == ';') m = pre ++ l :: post →
      splitStr (fun c => c == ';') m' = pre ++ l' :: post →
      splitStr (fun c => c == ',') l = xs ++ bad :: ys →
      splitStr (fun c => c == ',') l' = xs ++ ys →
      l ≠ "" → l' ≠ "" →
      decodeOriginalPosition m tl tc = decodeOriginalPosition m' tl tc := by
  intro m m' tl tc pre post l l' xs ys bad hbad hm hm' hsplit hsplit' hl hl'
  simp only [decodeOriginalPosition, hm, hm']
  have hlen : (pre ++ l' :: post).length = (pre ++ l :: post).length := by simp
  by_cases hle : (pre ++ l :: post).length ≤ tl
  · rw [if_pos hle, if_pos (by rw [hlen]; exact hle)]
  · rw [if_neg hle, if_neg (by rw [hlen]; exact hle)]
    refine congrArg some ?_
    apply walkLines_congr_line tc l l' hl hl'
    intro chk acc2
    rw [hsplit, hsplit']
    exact runSegments_append_bad tc chk bad hbad xs ys acc2

theorem c8_witness :
    decodeOriginalPosition "AAAA,!!,CACA" 0 5 =
      decodeOriginalPosition "AAAA,CACA" 0 5 :=
  c8_segment_skip "AAAA,!!,CACA" "AAAA,CACA" 0 5 [] [] "AAAA,!!,CACA"
    "AAAA,CACA" ["AAAA"] ["CACA"] "!!" (by decide) (by decide) (by decide)
    (by decide) (by decide) (by decide) (by decide)

theorem walkLines_genCol_independent (tc : Int) :
    ∀ (lines : List String) (tl : Nat) (acc : MappingAcc) (g : Int),
      walkLines tc lines tl { acc with genCol := g } = walkLines tc lines tl acc := by
  intro lines
  induction lines with
  | nil => intro tl acc g; rfl
  | cons l rest ih =>
    intro tl acc g
    cases tl with
    | zero =>
      rw [walkLines, walkLines]
      by_cases hl : l = ""
      · rw [if_pos hl, if_pos hl]
        rfl
      · rw [if_neg hl, if_neg hl]
    | succ tl' =>
      rw [walkLines, walkLines]
      by_cases hl : l = ""
      · rw [if_pos hl, if_pos hl]
        exact ih tl' acc g
      · rw [if_neg hl, if_neg hl]

theorem walkLines_line_step (tc : Int) (l : String) (rest : List String)
    (tl : Nat) (acc : MappingAcc) :
    walkLines tc (l :: rest) (tl + 1) acc = walkLines tc rest tl (foldLine l acc) := by
  rw [walkLines]
  by_cases hl : l = ""
  · rw [if_pos hl, foldLine, if_pos hl]
  · rw [if_neg hl]
    have hsucc : ((tl + 1 : Nat) == 0) = false := by simp
    rw [hsucc, runSegments_false tc, foldLine, if_neg hl]

theorem runSegments_shift (tc : Int) (chk : Bool) (dL dC : Int) :
    ∀ (segs : List String) (acc : MappingAcc),
      runSegments tc chk segs
        { acc with origLine := acc.origLine + dL, origCol := acc.origCol + dC } =
      match runSegments tc chk segs acc with
      | .error p =>
        .error { originalLine := p.originalLine + dL,
                 originalColumn := p.originalColumn + dC }
      | .ok a => .ok { a with origLine := a.origLine + dL, origCol := a.origCol + dC } := by
  intro segs
  induction segs with
  | nil => intro acc; rfl
  | cons seg rest ih =>
    intro acc
    rw [runSegments, runSegments]
    cases hd : segmentDeltas seg with
    | none => exact ih acc
    | some d =>
      dsimp only
      have hstep : stepAcc { acc with origLine := acc.origLine + dL, origCol := acc.origCol + dC } d = { stepAcc acc d with origLine := (stepAcc acc d).origLine + dL, origCol := (stepAcc acc d).origCol + dC } := by
        simp only [stepAcc, MappingAcc.mk.injEq]
        refine ⟨trivial, trivial, by ring_nf, by ring_nf⟩
      rw [hstep]
      by_cases hcol : chk = true ∧ tc ≤ (stepAcc acc d).genCol
      · rw [if_pos hcol, if_pos hcol]
        simp only [posOf, OriginalPosition.mk.injEq, Except.error.injEq]
        constructor <;> ring_nf
      · rw [if_neg hcol, if_neg hcol]
        exact ih (stepAcc acc d)

theorem walkLines_shift (tc : Int) (dL dC : Int) :
    ∀ (lines : List String) (tl : Nat) (acc : MappingAcc),
      walkLines tc lines tl
        { acc with origLine := acc.origLine + dL, origCol := acc.origCol + dC } =
      { originalLine := (walkLines tc lines tl acc).originalLine + dL,
        originalColumn := (walkLines tc lines tl acc).originalColumn + dC } := by
  intro lines
  induction lines with
  | nil =>
    intro tl acc
    simp only [walkLines, posOf, OriginalPosition.mk.injEq]
    exact ⟨by ring_nf, trivial⟩
  | cons l rest ih =>
    intro tl acc
    cases tl with
    | zero =>
      rw [walkLines, walkLines]
      by_cases hl : l = ""
      · rw [if_pos hl, if_pos hl]
        simp only [posOf, OriginalPosition.mk.injEq]
        exact ⟨by ring_nf, trivial⟩
      · rw [if_neg hl, if_neg hl]
        have hacc : ({ ({ acc with origLine := acc.origLine + dL, origCol := acc.origCol + dC } : MappingAcc) with genCol := 0 } : MappingAcc) = { ({ acc with genCol := 0 } : MappingAcc) with origLine := ({ acc with genCol := 0 } : MappingAcc).origLine + dL, origCol := ({ acc with genCol := 0 } : MappingAcc).origCol + dC } := rfl
        rw [hacc, runSegments_shift tc ((0 : Nat) == 0) dL dC]
        cases hr : runSegments tc ((0 : Nat) == 0) (splitStr (fun c => c == ',') l)
            { acc with genCol := 0 } with
        | error p => rfl
        | ok a =>
          simp only [posOf, OriginalPosition.mk.injEq]
          exact ⟨by ring_nf, trivial⟩
    | succ tl' =>
      rw [walkLines, walkLines]
      by_cases hl : l = ""
      · rw [if_pos hl, if_pos hl]
        exact ih tl' acc
      · rw [if_neg hl, if_neg hl]
        have hacc : ({ ({ acc with origLine := acc.origLine + dL, origCol := acc.origCol + dC } : MappingAcc) with genCol := 0 } : MappingAcc) = { ({ acc with genCol := 0 } : MappingAcc) with origLine := ({ acc with genCol := 0 } : MappingAcc).origLine + dL, origCol := ({ acc with genCol := 0 } : MappingAcc).origCol + dC } := rfl
        rw [hacc, runSegments_shift tc ((tl' + 1 : Nat) == 0) dL dC]
        cases hr : runSegments tc ((tl' + 1 : Nat) == 0) (splitStr (fun c => c == ',') l)
            { acc with genCol := 0 } with
        | error p => rfl
        | ok a => exact ih tl' a

/-- C10.  Accumulator invariants of the mapping walk: (1) at the start of
every generated line the running generated-column accumulator is reset to 0,
so the walk's outcome does not depend on the incoming generated column at
all; (2) processing a line carries its folded accumulator — `foldLine`
resets only `genCol` and never the source-index and original line/column
accumulators — into the remaining lines; (3) the original line/column
accumulators carried in from earlier lines shift the decoded position
additively, so the position decoded for a segment depends on every parseable
segment of all earlier lines, not only on the target line. -/
theorem c10_accumulator_invariants :
    ∀ (tc : Int),
      (∀ (lines : List String) (tl : Nat) (acc : MappingAcc) (g : Int),
        walkLines tc lines tl { acc with genCol := g } = walkLines tc lines tl acc)
      ∧ (∀ (l : String) (rest : List String) (tl : Nat) (acc : MappingAcc),
        walkLines tc (l :: rest) (tl + 1) acc = walkLines tc rest tl (foldLine l acc))
      ∧ (∀ (lines : List String) (tl : Nat) (acc : MappingAcc) (dL dC : Int),
        walkLines tc lines tl
          { acc with origLine := acc.origLine + dL, origCol := acc.origCol + dC } =
        { originalLine := (walkLines tc lines tl acc).originalLine + dL,
          originalColumn := (walkLines tc lines tl acc).originalColumn + dC }) :=
  fun tc =>
    ⟨walkLines_genCol_independent tc,
     fun l rest tl acc => walkLines_line_step tc l rest tl acc,
     fun lines tl acc dL dC => walkLines_shift tc dL dC lines tl acc⟩

/-- C9.  Bounded traversal: the claim fails on the code.  The walk
`findNearestComponentFiber` has no depth cap — on a cyclic fiber chain (a
non-component node whose `return` is itself) its loop never exits, witnessed
here by the fuel-indexed unrolling returning "still running" for every fuel.
By contrast `collectComponentAncestry` is capped: with its default
`maxDepth = 20` it returns at most 20 entries on any heap, cyclic or not. -/
theorem c9_unbounded_walk :
    (∀ fuel, findNearestComponentFiberFuel cyclicHeap (some 0) fuel = none)
    ∧ (∀ (heap : Nat → HeapFiberNode) (start : Option Nat),
        (collectComponentAncestryHeap heap start 20).length ≤ 20) := by
  constructor
  · intro fuel
    induction fuel with
    | zero => rfl
    | succ n ih =>
      rw [findNearestComponentFiberFuel]
      simp only [cyclicHeap]
      rw [if_neg (by decide)]
      exact ih
  · have key : ∀ (fuel : Nat) (heap : Nat → HeapFiberNode) (start : Option Nat),
        (collectComponentAncestryHeap heap start fuel).length ≤ fuel := by
      intro fuel
      induction fuel with
      | zero =>
        intro heap start
        cases start <;> simp [collectComponentAncestryHeap]
      | succ n ih =>
        intro heap start
        cases start with
        | none => simp [collectComponentAncestryHeap]
        | some id =>
          rw [collectComponentAncestryHeap]
          by_cases htag : (heap id).tag = 0 ∨ (heap id).tag = 1
          · rw [if_pos htag]
            cases hn : (heap id).name with
            | none => exact Nat.le_succ_of_le (ih heap _)
            | some n =>
              simp only [List.length_cons]
              exact Nat.succ_le_succ (ih heap _)
          · rw [if_neg htag]
            exact Nat.le_succ_of_le (ih heap _)
    exact key 20

end NextjsLocator
